import Mathlib

/-!
# Verification of `tools/locs.py`

A shallow embedding in Lean 4 of the V8 `tools/locs.py` script, which counts
lines of code before and after preprocessor expansion, aggregates the counts
into named regex groups, and renders reports.

The embedding follows the Python source:
* `Regex` / `pmatch` model `re.compile` / `re.match` (a Python `re.match`
  succeeds iff the pattern matches some prefix of the string, i.e. it is
  anchored at the start only);
* `File`, `Group`, `Results` model the classes of the same names;
* `Dict` models Python `dict` (insertion order, later bindings overwrite);
* `SetupReportGroups`, `Main` model the functions of the same names;
* `mainWrites` models which output channel (stdout/stderr) each print
  statement of `Main` writes to.
-/

namespace Locs

/-! ## Regular expressions

Python `re` patterns, restricted to the constructs the script uses.  Matching
is defined via Brzozowski derivatives.  `pmatch r s` is `re.match`: it decides
whether some prefix of `s` is in the language of `r`. -/

/-- Abstract syntax of the regular expressions the script compiles. -/
inductive Regex where
  | fail : Regex
  | eps : Regex
  | char : Char → Regex
  | any : Regex
  | cat : Regex → Regex → Regex
  | alt : Regex → Regex → Regex
  | star : Regex → Regex
deriving DecidableEq, Repr

/-- Does the regex accept the empty string? -/
def nullable : Regex → Bool
  | .fail => false
  | .eps => true
  | .char _ => false
  | .any => false
  | .cat r s => nullable r && nullable s
  | .alt r s => nullable r || nullable s
  | .star _ => true

/-- Brzozowski derivative of a regex with respect to one character. -/
def rderiv : Regex → Char → Regex
  | .fail, _ => .fail
  | .eps, _ => .fail
  | .char a, c => if a = c then .eps else .fail
  | .any, _ => .eps
  | .cat r s, c =>
      if nullable r then .alt (.cat (rderiv r c) s) (rderiv s c)
      else .cat (rderiv r c) s
  | .alt r s, c => .alt (rderiv r c) (rderiv s c)
  | .star r, c => .cat (rderiv r c) (.star r)

/-- Python `re.match`: does `r` match some prefix of `s` (anchored at the
start of the string, not required to reach its end)? -/
def pmatch : Regex → List Char → Bool
  | r, [] => nullable r
  | r, c :: cs => nullable r || pmatch (rderiv r c) cs

/-- The regex denoting one literal string (each character escaped), e.g. the
compiled form of the pattern `'\\.\\./\\.\\./src'` is `litRegex "../../src".data`. -/
def litRegex : List Char → Regex
  | [] => .eps
  | c :: cs => .cat (.char c) (litRegex cs)

/-- `'.*'`, the pattern of the default "total" group. -/
def dotStar : Regex := .star .any

@[simp] theorem pmatch_dotStar (s : List Char) : pmatch dotStar s = true := by
  cases s <;> simp [pmatch, dotStar, nullable]

theorem pmatch_alt (r s : Regex) (x : List Char) :
    pmatch (.alt r s) x = (pmatch r x || pmatch s x) := by
  induction x generalizing r s with
  | nil => simp [pmatch, nullable]
  | cons c cs ih =>
      simp only [pmatch, nullable, rderiv, ih]
      cases nullable r <;> cases nullable s <;>
        cases pmatch (rderiv r c) cs <;> cases pmatch (rderiv s c) cs <;> simp

theorem pmatch_cat_fail (r : Regex) (x : List Char) :
    pmatch (.cat .fail r) x = false := by
  induction x with
  | nil => simp [pmatch, nullable]
  | cons c cs ih => simpa [pmatch, nullable, rderiv] using ih

theorem pmatch_cat_eps (r : Regex) (x : List Char) :
    pmatch (.cat .eps r) x = pmatch r x := by
  cases x with
  | nil => simp [pmatch, nullable]
  | cons c cs =>
      simp [pmatch, nullable, rderiv, pmatch_alt, pmatch_cat_fail]

/-- Matching a literal-string regex against `s` is exactly the test that the
literal is a prefix of `s`: Python `re.match` is anchored at the start. -/
theorem pmatch_litRegex (w s : List Char) :
    pmatch (litRegex w) s = w.isPrefixOf s := by
  induction w generalizing s with
  | nil =>
      cases s <;> simp [litRegex, pmatch, nullable, List.isPrefixOf]
  | cons a w' ih =>
      cases s with
      | nil => simp [litRegex, pmatch, nullable, List.isPrefixOf]
      | cons c cs =>
          by_cases hac : a = c
          · subst hac
            simp [litRegex, pmatch, nullable, rderiv, pmatch_cat_eps, ih,
              List.isPrefixOf]
          · simp [litRegex, pmatch, nullable, rderiv, pmatch_cat_fail, ih,
              List.isPrefixOf, hac]

/-! ## Data model

`File` (a Unit: one measured translation unit) and `Group` (a named
accumulator) correspond to the Python classes of the same names; both inherit
`loc` / `expanded` / `ratio` from `CompilationData`.  Line counts are Python
integers, modelled as `Int`; the float division in `ratio` is modelled
exactly in `ℚ`. -/

/-- Python class `File(CompilationData)`: one recorded Unit. -/
structure File where
  file : String
  loc : Int
  expanded : Int
deriving DecidableEq, Repr

/-- `CompilationData.ratio` for a `File`: `self.expanded / (self.loc+1)`. -/
def File.ratio (u : File) : ℚ := (u.expanded : ℚ) / ((u.loc : ℚ) + 1)

/-- Python class `Group(CompilationData)`: a named regex accumulator, created
with `loc = expanded = count = 0`. -/
structure Group where
  name : String
  regexp : Regex
  loc : Int
  expanded : Int
  count : Int
deriving DecidableEq, Repr

/-- `CompilationData.ratio` for a `Group`: `self.expanded / (self.loc+1)`. -/
def Group.ratio (g : Group) : ℚ := (g.expanded : ℚ) / ((g.loc : ℚ) + 1)

/-- `Group.account`: if the group's regex matches the unit's file name
(`re.match`, anchored at the start), add the unit's counts and bump the file
count; otherwise leave the group unchanged. -/
def Group.account (g : Group) (u : File) : Group :=
  if pmatch g.regexp u.file.data then
    { g with loc := g.loc + u.loc, expanded := g.expanded + u.expanded,
             count := g.count + 1 }
  else g

/-- Python class `Results`: the groups (a dict, modelled as a list in
insertion order) and the recorded units (in completion order). -/
structure Results where
  groups : List Group
  units : List File
deriving DecidableEq, Repr

/-- `Results.track`: a file name is tracked iff some group's regex matches it
(the Python loop or-folds `group.regexp.match(filename)` over all groups). -/
def Results.track (r : Results) (filename : String) : Bool :=
  r.groups.any fun g => pmatch g.regexp filename.data

/-- `Results.recordFile`: append a new unit and let every group account it. -/
def Results.recordFile (r : Results) (filename : String) (loc expanded : Int) :
    Results :=
  let unit : File := ⟨filename, loc, expanded⟩
  { groups := r.groups.map (·.account unit), units := r.units ++ [unit] }

/-- Record a whole list of `(filename, loc, expanded)` results in order (the
second loop of `Main`, which calls `recordFile` once per completed process). -/
def recordAll (r : Results) (fs : List (String × Int × Int)) : Results :=
  fs.foldl (fun acc f => acc.recordFile f.1 f.2.1 f.2.2) r

/-! ## The main processing loop

One compilation-database entry, as `Main` sees it.  `exists_` models the
`infile.is_file()` check; `loc` and `expanded` model the two integers the
external shell command would print for this entry if it is launched (the
external toolchain is an oracle). -/

structure Entry where
  file : String
  exists_ : Bool
  loc : Int
  expanded : Int
deriving DecidableEq, Repr

/-- The entries for which `Main`'s first loop launches an external process:
those that are tracked and whose input file exists on disk.  (The first loop
does not mutate `result`, so all `track` tests see the same groups.) -/
def launchedEntries (r : Results) (entries : List Entry) : List Entry :=
  (entries.filter fun e => r.track e.file).filter (·.exists_)

/-- The two loops of `Main`: launch one process per tracked, existing entry,
then record each process's two integers via `recordFile`. -/
def mainLoop (r : Results) (entries : List Entry) : Results :=
  recordAll r ((launchedEntries r entries).map fun e => (e.file, e.loc, e.expanded))

/-! ## Python dictionaries

`SetupReportGroups` builds the group table with Python-dict operations:
`{**defaults, **dict(ARGS['group'])}` and dict comprehensions.  A Python dict
is an association list in insertion order whose keys are unique; writing to an
existing key overwrites its value in place, writing a new key appends. -/

/-- A Python dict with `String` keys, as an insertion-ordered assoc list. -/
abbrev Dict (α : Type) := List (String × α)

/-- Write one key: overwrite in place if present, else append. -/
def dictInsert : Dict α → String → α → Dict α
  | [], k, v => [(k, v)]
  | p :: d, k, v => if p.1 = k then (k, v) :: d else p :: dictInsert d k v

/-- `{**a, **b}` for `b` given as a pair list: fold the writes of `b` into
`a` in order (later pairs win). -/
def dictMerge (a : Dict α) (b : List (String × α)) : Dict α :=
  b.foldl (fun d p => dictInsert d p.1 p.2) a

/-- Python `dict(pairs)`. -/
def dictOfList (l : List (String × α)) : Dict α := dictMerge [] l

/-- Dict lookup: the (unique) binding of a key, if any. -/
def dictLookup : Dict α → String → Option α
  | [], _ => none
  | p :: d, k => if p.1 = k then some p.2 else dictLookup d k

/-! ## `SetupReportGroups` and `Main`

The regex strings of the script's `--group` arguments are modelled as already
compiled `Regex` values (`re.compile` is the identity of the embedding).
`exit(1)` is modelled as `Except.error`. -/

/-- The five `default_report_groups` of `SetupReportGroups`: `'.*'` and four
literal patterns (in the source the dots are escaped, so `'\\.\\./\\.\\./src'`
denotes the literal string `../../src`). -/
def defaultReportGroups : Dict Regex :=
  [("total", dotStar),
   ("src", litRegex "../../src".data),
   ("test", litRegex "../../test".data),
   ("third_party", litRegex "../../third_party".data),
   ("gen", litRegex "gen".data)]

/-- `report_groups = {**default_report_groups, **dict(ARGS['group'])}`. -/
def mergedReportGroups (groupArgs : List (String × Regex)) : Dict Regex :=
  dictMerge defaultReportGroups (dictOfList groupArgs)

/-- The `for only_arg in ARGS['only']` loop: at each argument, `exit(1)` if it
is not a key of the current dict, else keep only the keys listed in (the
whole of) `ARGS['only']`. -/
def onlyLoop (allOnly : List String) : List String → Dict Regex →
    Except Unit (Dict Regex)
  | [], d => .ok d
  | a :: rest, d =>
      if d.any (fun p => p.1 = a) then
        onlyLoop allOnly rest (d.filter fun p => p.1 ∈ allOnly)
      else .error ()

/-- `SetupReportGroups`: merge defaults with `--group` pairs, apply the
`--only` filter (exiting on an unknown name), drop `--not` names, and build
zero-initialised `Group`s from what is left. -/
def SetupReportGroups (groupArgs : List (String × Regex))
    (onlyArgs notArgs : List String) : Except Unit (List Group) := do
  let merged := mergedReportGroups groupArgs
  let afterOnly ←
    if onlyArgs.isEmpty then .ok merged else onlyLoop onlyArgs onlyArgs merged
  let afterNot :=
    if notArgs.isEmpty then afterOnly
    else afterOnly.filter fun p => p.1 ∉ notArgs
  .ok (afterNot.map fun p => { name := p.1, regexp := p.2, loc := 0,
                               expanded := 0, count := 0 })

/-- `Main`, as exit code plus the final `Results` (when it gets that far):
first the compilation database is opened (`exit(1)` via the
`FileNotFoundError` handler if unreadable), then `Results()` runs
`SetupReportGroups` (`exit(1)` on a bad `--only` name), then the two loops
process the entries, and `Main` returns `0`. -/
def Main (groupArgs : List (String × Regex)) (onlyArgs notArgs : List String)
    (dbReadable : Bool) (entries : List Entry) : Nat × Option Results :=
  if dbReadable = false then (1, none)
  else
    match SetupReportGroups groupArgs onlyArgs notArgs with
    | .error _ => (1, none)
    | .ok gs => (0, some (mainLoop ⟨gs, []⟩ entries))

/-! ## Sorted top-N reports -/

/-- `Results.printSorted`: `sorted(self.units, key=key, reverse=reverse)[:count]`.
Python's sort is stable; `reverse=True` sorts descending by key, keeping the
original order of equal keys, which is stable `mergeSort` with the flipped
non-strict comparison. -/
def Results.printSorted (r : Results) (key : File → Int) (count : Nat)
    (rev : Bool) : List File :=
  (if rev then r.units.mergeSort fun a b => decide (key b ≤ key a)
   else r.units.mergeSort fun a b => decide (key a ≤ key b)).take count

/-- The `--largest n` listing: `printSorted(lambda v: v.expanded, n, reverse=True)`. -/
def largestReport (r : Results) (n : Nat) : List File :=
  r.printSorted (fun v => v.expanded) n true

/-! ## Output channels

Which stream each print statement of `Main` writes to.  In the source,
`out = sys.stdout` and is rebound to `sys.stderr` when `--json` is given;
most prints pass `file=out`, but some pass nothing and therefore always go to
`sys.stdout`. -/

inductive Chan where
  | stdout : Chan
  | stderr : Chan
deriving DecidableEq, Repr

/-- One kind per print statement of `Main` (headers and body lines of the
four top-N sections distinguished). -/
inductive OutKind where
  | progressCount : OutKind
  | echoCmd : OutKind
  | progressSum : OutKind
  | jsonDump : OutKind
  | processedSummary : OutKind
  | groupLine : OutKind
  | largestHeader : OutKind
  | largestLine : OutKind
  | worstHeader : OutKind
  | worstLine : OutKind
  | smallestHeader : OutKind
  | smallestLine : OutKind
  | filesHeader : OutKind
  | filesLine : OutKind
deriving DecidableEq, Repr

/-- The writes of `Main`, in program order, each tagged with the stream the
source passes to `print` (counts of repeated lines are parameters):
* `status.print("[...] Counting ...")` — no `file=` argument, guarded by
  `if not ARGS['json']` — `stdout`, only without `--json`;
* `print(runcmd)` under `if ARGS['echocmd']` — no `file=` — `stdout`;
* `status.print("[...] Summing up ...", file=out)` — `out`;
* `print(json.dumps(...))` under `if ARGS['json']` — `stdout`;
* `status.print("Processed ...", file=out)` — `out`;
* group result lines, `file=out` — `out`;
* each top-N section: header `print("...")` — no `file=` — `stdout`, then
  its body lines via `printSorted(..., out=out)` — `out`. -/
def mainWrites (json echocmd : Bool) (nTracked nLaunched nGroups : Nat)
    (nLargest nWorst nSmallest nFiles : Nat) : List (OutKind × Chan) :=
  let out : Chan := if json then .stderr else .stdout
  (if json then [] else List.replicate nTracked (.progressCount, .stdout))
    ++ (if echocmd then List.replicate nLaunched (.echoCmd, .stdout) else [])
    ++ List.replicate nLaunched (.progressSum, out)
    ++ (if json then [(.jsonDump, .stdout)] else [])
    ++ [(.processedSummary, out)]
    ++ List.replicate nGroups (.groupLine, out)
    ++ (if nLargest ≠ 0 then
          (.largestHeader, .stdout) :: List.replicate nLargest (.largestLine, out)
        else [])
    ++ (if nWorst ≠ 0 then
          (.worstHeader, .stdout) :: List.replicate nWorst (.worstLine, out)
        else [])
    ++ (if nSmallest ≠ 0 then
          (.smallestHeader, .stdout) :: List.replicate nSmallest (.smallestLine, out)
        else [])
    ++ (if nFiles ≠ 0 then
          (.filesHeader, .stdout) :: List.replicate nFiles (.filesLine, out)
        else [])

/-! ## Accounting lemmas -/

/-- The unit built by `recordFile` from one `(filename, loc, expanded)` triple. -/
def mkFile (f : String × Int × Int) : File := ⟨f.1, f.2.1, f.2.2⟩

/-- How one group evolves through a run: `account` folded over the units. -/
def accountList (g : Group) (us : List File) : Group := us.foldl Group.account g

/-- The units whose file name a regex `re.match`es. -/
def matchingUnits (re : Regex) (us : List File) : List File :=
  us.filter fun u => pmatch re u.file.data

theorem account_regexp (g : Group) (u : File) : (g.account u).regexp = g.regexp := by
  unfold Group.account; split <;> rfl

theorem account_name (g : Group) (u : File) : (g.account u).name = g.name := by
  unfold Group.account; split <;> rfl

theorem accountList_eq (g : Group) (us : List File) :
    accountList g us =
      { g with
        loc := g.loc + ((matchingUnits g.regexp us).map File.loc).sum,
        expanded := g.expanded + ((matchingUnits g.regexp us).map File.expanded).sum,
        count := g.count + ((matchingUnits g.regexp us).length : Int) } := by
  induction us generalizing g with
  | nil => simp [accountList, matchingUnits]
  | cons u us ih =>
      have step : accountList g (u :: us) = accountList (g.account u) us := rfl
      rw [step, ih (g.account u)]
      by_cases h : pmatch g.regexp u.file.data
      · simp only [Group.account, if_pos h]
        simp [matchingUnits, h, account_regexp]
        constructor
        · ring
        constructor
        · ring
        · ring
      · simp only [Group.account, if_neg h]
        simp [matchingUnits, h]

theorem recordAll_units (r : Results) (fs : List (String × Int × Int)) :
    (recordAll r fs).units = r.units ++ fs.map mkFile := by
  induction fs generalizing r with
  | nil => simp [recordAll]
  | cons f fs ih =>
      have step : recordAll r (f :: fs) = recordAll (r.recordFile f.1 f.2.1 f.2.2) fs := rfl
      rw [step, ih]
      simp [Results.recordFile, mkFile]

theorem recordAll_groups (r : Results) (fs : List (String × Int × Int)) :
    (recordAll r fs).groups = r.groups.map fun g => accountList g (fs.map mkFile) := by
  induction fs generalizing r with
  | nil => simp [recordAll, accountList]
  | cons f fs ih =>
      have step : recordAll r (f :: fs) = recordAll (r.recordFile f.1 f.2.1 f.2.2) fs := rfl
      rw [step, ih]
      simp only [Results.recordFile, List.map_map, List.map_cons]
      rfl

theorem accountList_regexp (g : Group) (us : List File) :
    (accountList g us).regexp = g.regexp := by
  rw [accountList_eq]

/-! ## Claims -/

/-- C1: after all files have been recorded, every group's `loc` is the sum
of `loc` over exactly the recorded units whose file the group's pattern
matches, its `expanded` is the sum of `expanded` over those units, and its
`count` is the number of those units; in particular a group whose pattern is
`'.*'` (the default "total" group) counts every recorded unit. -/
theorem C1_group_accounting (gs : List Group) (fs : List (String × Int × Int))
    (hz : ∀ g ∈ gs, g.loc = 0 ∧ g.expanded = 0 ∧ g.count = 0) :
    ((recordAll ⟨gs, []⟩ fs).groups = gs.map fun g =>
      { g with
        loc := ((matchingUnits g.regexp (recordAll ⟨gs, []⟩ fs).units).map File.loc).sum,
        expanded := ((matchingUnits g.regexp (recordAll ⟨gs, []⟩ fs).units).map File.expanded).sum,
        count := ((matchingUnits g.regexp (recordAll ⟨gs, []⟩ fs).units).length : Int) }) ∧
    ∀ g ∈ (recordAll ⟨gs, []⟩ fs).groups, g.regexp = dotStar →
      g.count = ((recordAll ⟨gs, []⟩ fs).units.length : Int) := by
  have hunits : (recordAll ⟨gs, []⟩ fs).units = fs.map mkFile := by
    simpa using recordAll_units ⟨gs, []⟩ fs
  have hgroups : (recordAll ⟨gs, []⟩ fs).groups =
      gs.map fun g => accountList g (fs.map mkFile) :=
    recordAll_groups ⟨gs, []⟩ fs
  constructor
  · rw [hgroups, hunits]
    refine List.map_congr_left fun g hg => ?_
    obtain ⟨h1, h2, h3⟩ := hz g hg
    rw [accountList_eq, h1, h2, h3]
    simp
  · intro g' hg' hre
    rw [hgroups] at hg'
    obtain ⟨g, hg, rfl⟩ := List.mem_map.mp hg'
    obtain ⟨-, -, h3⟩ := hz g hg
    rw [accountList_regexp] at hre
    rw [accountList_eq, hunits]
    have hall : matchingUnits g.regexp (fs.map mkFile) = fs.map mkFile := by
      rw [hre]
      exact List.filter_eq_self.mpr fun u _ => pmatch_dotStar u.file.data
    simp [hall, h3]

/-- Witness for C1 at a concrete run: a "total" group plus a "gen" group over
two recorded files. -/
theorem C1_group_accounting_witness :
    (∀ g ∈ [Group.mk "total" dotStar 0 0 0,
            Group.mk "gen" (litRegex "gen".data) 0 0 0],
        g.loc = 0 ∧ g.expanded = 0 ∧ g.count = 0) ∧
    (((recordAll ⟨[Group.mk "total" dotStar 0 0 0,
                   Group.mk "gen" (litRegex "gen".data) 0 0 0], []⟩
        [("gen1.cc", 10, 50), ("src.cc", 20, 40)]).groups =
      [Group.mk "total" dotStar 0 0 0,
       Group.mk "gen" (litRegex "gen".data) 0 0 0].map fun g =>
      { g with
        loc := ((matchingUnits g.regexp
          (recordAll ⟨[Group.mk "total" dotStar 0 0 0,
                       Group.mk "gen" (litRegex "gen".data) 0 0 0], []⟩
            [("gen1.cc", 10, 50), ("src.cc", 20, 40)]).units).map File.loc).sum,
        expanded := ((matchingUnits g.regexp
          (recordAll ⟨[Group.mk "total" dotStar 0 0 0,
                       Group.mk "gen" (litRegex "gen".data) 0 0 0], []⟩
            [("gen1.cc", 10, 50), ("src.cc", 20, 40)]).units).map File.expanded).sum,
        count := ((matchingUnits g.regexp
          (recordAll ⟨[Group.mk "total" dotStar 0 0 0,
                       Group.mk "gen" (litRegex "gen".data) 0 0 0], []⟩
            [("gen1.cc", 10, 50), ("src.cc", 20, 40)]).units).length : Int) }) ∧
    ∀ g ∈ (recordAll ⟨[Group.mk "total" dotStar 0 0 0,
                       Group.mk "gen" (litRegex "gen".data) 0 0 0], []⟩
            [("gen1.cc", 10, 50), ("src.cc", 20, 40)]).groups,
      g.regexp = dotStar →
      g.count = (((recordAll ⟨[Group.mk "total" dotStar 0 0 0,
                               Group.mk "gen" (litRegex "gen".data) 0 0 0], []⟩
            [("gen1.cc", 10, 50), ("src.cc", 20, 40)]).units).length : Int)) :=
  ⟨by decide, C1_group_accounting _ _ (by decide)⟩

/-- C2: for every Unit and every Group, `ratio()` is
`expandedLines / (rawLines + 1)` exactly, and with the `+1` the denominator
is nonzero for every `rawLines ≥ 0` (including `rawLines = 0`), so the
division is defined. -/
theorem C2_expansion_ratio (u : File) (g : Group)
    (hu : 0 ≤ u.loc) (hg : 0 ≤ g.loc) :
    u.ratio = (u.expanded : ℚ) / ((u.loc : ℚ) + 1) ∧
    g.ratio = (g.expanded : ℚ) / ((g.loc : ℚ) + 1) ∧
    ((u.loc : ℚ) + 1) ≠ 0 ∧ ((g.loc : ℚ) + 1) ≠ 0 := by
  refine ⟨rfl, rfl, ?_, ?_⟩
  · have : (0 : ℚ) ≤ (u.loc : ℚ) := by exact_mod_cast hu
    positivity
  · have : (0 : ℚ) ≤ (g.loc : ℚ) := by exact_mod_cast hg
    positivity

/-- Witness for C2 on an empty file (`rawLines = 0`) and a fresh group. -/
theorem C2_expansion_ratio_witness :
    0 ≤ (File.mk "empty.cc" 0 7).loc ∧
    0 ≤ (Group.mk "total" dotStar 0 0 0).loc ∧
    ((File.mk "empty.cc" 0 7).ratio =
        ((File.mk "empty.cc" 0 7).expanded : ℚ) /
          (((File.mk "empty.cc" 0 7).loc : ℚ) + 1) ∧
      (Group.mk "total" dotStar 0 0 0).ratio =
        ((Group.mk "total" dotStar 0 0 0).expanded : ℚ) /
          (((Group.mk "total" dotStar 0 0 0).loc : ℚ) + 1) ∧
      (((File.mk "empty.cc" 0 7).loc : ℚ) + 1) ≠ 0 ∧
      (((Group.mk "total" dotStar 0 0 0).loc : ℚ) + 1) ≠ 0) :=
  ⟨by decide, by decide,
   C2_expansion_ratio (File.mk "empty.cc" 0 7) (Group.mk "total" dotStar 0 0 0)
     (by decide) (by decide)⟩

/-- C3: in any run configured through `SetupReportGroups` (any `--group`,
`--only`, `--not`), every recorded unit's path is matched by the "total"
group's pattern `'.*'`, and an entry whose path no active group matches is
never recorded as a unit. -/
theorem C3_total_tracks_everything (groupArgs : List (String × Regex))
    (onlyArgs notArgs : List String) (gs : List Group)
    (_hset : SetupReportGroups groupArgs onlyArgs notArgs = .ok gs)
    (entries : List Entry) :
    (∀ u ∈ (mainLoop ⟨gs, []⟩ entries).units, pmatch dotStar u.file.data = true) ∧
    (∀ e ∈ entries, Results.track ⟨gs, []⟩ e.file = false →
      ∀ u ∈ (mainLoop ⟨gs, []⟩ entries).units, u.file ≠ e.file) := by
  have hunits : (mainLoop ⟨gs, []⟩ entries).units =
      ((launchedEntries ⟨gs, []⟩ entries).map
        fun e => (e.file, e.loc, e.expanded)).map mkFile := by
    simpa [mainLoop] using
      recordAll_units ⟨gs, []⟩
        ((launchedEntries ⟨gs, []⟩ entries).map fun e => (e.file, e.loc, e.expanded))
  constructor
  · intro u _
    exact pmatch_dotStar u.file.data
  · intro e _ htrack u hu hfile
    rw [hunits] at hu
    simp only [List.map_map, List.mem_map, Function.comp] at hu
    obtain ⟨e', he', rfl⟩ := hu
    have he'tr : Results.track ⟨gs, []⟩ e'.file = true := by
      have := (List.mem_filter.mp (List.mem_filter.mp he').1).2
      simpa using this
    rw [show (mkFile (e'.file, e'.loc, e'.expanded)).file = e'.file from rfl] at hfile
    rw [hfile, htrack] at he'tr
    cases he'tr

/-- Witness for C3: the default configuration with one entry. -/
theorem C3_total_tracks_everything_witness :
    SetupReportGroups [] [] [] = .ok
      [Group.mk "total" dotStar 0 0 0,
       Group.mk "src" (litRegex "../../src".data) 0 0 0,
       Group.mk "test" (litRegex "../../test".data) 0 0 0,
       Group.mk "third_party" (litRegex "../../third_party".data) 0 0 0,
       Group.mk "gen" (litRegex "gen".data) 0 0 0] ∧
    ((∀ u ∈ (mainLoop ⟨[Group.mk "total" dotStar 0 0 0,
       Group.mk "src" (litRegex "../../src".data) 0 0 0,
       Group.mk "test" (litRegex "../../test".data) 0 0 0,
       Group.mk "third_party" (litRegex "../../third_party".data) 0 0 0,
       Group.mk "gen" (litRegex "gen".data) 0 0 0], []⟩
         [Entry.mk "x.cc" true 1 2]).units,
        pmatch dotStar u.file.data = true) ∧
      (∀ e ∈ [Entry.mk "x.cc" true 1 2],
        Results.track ⟨[Group.mk "total" dotStar 0 0 0,
          Group.mk "src" (litRegex "../../src".data) 0 0 0,
          Group.mk "test" (litRegex "../../test".data) 0 0 0,
          Group.mk "third_party" (litRegex "../../third_party".data) 0 0 0,
          Group.mk "gen" (litRegex "gen".data) 0 0 0], []⟩ e.file = false →
        ∀ u ∈ (mainLoop ⟨[Group.mk "total" dotStar 0 0 0,
          Group.mk "src" (litRegex "../../src".data) 0 0 0,
          Group.mk "test" (litRegex "../../test".data) 0 0 0,
          Group.mk "third_party" (litRegex "../../third_party".data) 0 0 0,
          Group.mk "gen" (litRegex "gen".data) 0 0 0], []⟩
            [Entry.mk "x.cc" true 1 2]).units, u.file ≠ e.file)) :=
  ⟨rfl, C3_total_tracks_everything [] [] [] _ rfl _⟩

/-- C4: a compilation-database entry whose input file does not exist on disk
(`infile.is_file()` false) is never launched as an external command, and the
run's result is the same as if the entry were not in the database at all; if
no entry for a file name exists on disk, that file name appears in no
recorded unit (hence in no report, all of which are derived from the
units). -/
theorem C4_missing_input_skipped (gs : List Group) (entries : List Entry)
    (e : Entry) (_he : e ∈ entries) (hex : e.exists_ = false) :
    e ∉ launchedEntries ⟨gs, []⟩ entries ∧
    mainLoop ⟨gs, []⟩ entries = mainLoop ⟨gs, []⟩ (entries.filter (·.exists_)) ∧
    ((∀ e' ∈ entries, e'.file = e.file → e'.exists_ = false) →
      ∀ u ∈ (mainLoop ⟨gs, []⟩ entries).units, u.file ≠ e.file) := by
  refine ⟨?_, ?_, ?_⟩
  · intro hmem
    have := (List.mem_filter.mp hmem).2
    rw [hex] at this
    cases this
  · have hlaunch : launchedEntries ⟨gs, []⟩ (entries.filter (·.exists_)) =
        launchedEntries ⟨gs, []⟩ entries := by
      simp only [launchedEntries, List.filter_filter]
      refine List.filter_congr fun a _ => ?_
      cases h1 : Results.track ⟨gs, []⟩ a.file <;> cases h2 : a.exists_ <;> simp [h1, h2]
    rw [mainLoop, mainLoop, hlaunch]
  · intro hall u hu hfile
    have hunits : (mainLoop ⟨gs, []⟩ entries).units =
        ((launchedEntries ⟨gs, []⟩ entries).map
          fun e' => (e'.file, e'.loc, e'.expanded)).map mkFile := by
      simpa [mainLoop] using
        recordAll_units ⟨gs, []⟩
          ((launchedEntries ⟨gs, []⟩ entries).map fun e' => (e'.file, e'.loc, e'.expanded))
    rw [hunits] at hu
    simp only [List.map_map, List.mem_map, Function.comp] at hu
    obtain ⟨e', he', rfl⟩ := hu
    have he'entries : e' ∈ entries :=
      List.mem_filter.mp (List.mem_filter.mp he').1 |>.1
    have he'ex : e'.exists_ = true := by
      simpa using (List.mem_filter.mp he').2
    have : e'.exists_ = false := hall e' he'entries hfile
    rw [he'ex] at this
    cases this

/-- Witness for C4: one tracked entry whose input file is missing. -/
theorem C4_missing_input_skipped_witness :
    Entry.mk "gone.cc" false 3 4 ∈ [Entry.mk "gone.cc" false 3 4] ∧
    (Entry.mk "gone.cc" false 3 4).exists_ = false ∧
    (Entry.mk "gone.cc" false 3 4 ∉
        launchedEntries ⟨[Group.mk "total" dotStar 0 0 0], []⟩
          [Entry.mk "gone.cc" false 3 4] ∧
      mainLoop ⟨[Group.mk "total" dotStar 0 0 0], []⟩ [Entry.mk "gone.cc" false 3 4] =
        mainLoop ⟨[Group.mk "total" dotStar 0 0 0], []⟩
          ([Entry.mk "gone.cc" false 3 4].filter (·.exists_)) ∧
      ((∀ e' ∈ [Entry.mk "gone.cc" false 3 4],
          e'.file = (Entry.mk "gone.cc" false 3 4).file → e'.exists_ = false) →
        ∀ u ∈ (mainLoop ⟨[Group.mk "total" dotStar 0 0 0], []⟩
            [Entry.mk "gone.cc" false 3 4]).units,
          u.file ≠ (Entry.mk "gone.cc" false 3 4).file)) :=
  ⟨by decide, by decide,
   C4_missing_input_skipped [Group.mk "total" dotStar 0 0 0]
     [Entry.mk "gone.cc" false 3 4] (Entry.mk "gone.cc" false 3 4)
     (by decide) (by decide)⟩

theorem onlyLoop_error (allOnly : List String) (rest : List String)
    (d : Dict Regex) (a : String) (ha : a ∈ rest)
    (hmiss : d.any (fun q => q.1 = a) = false) :
    onlyLoop allOnly rest d = .error () := by
  induction rest generalizing d with
  | nil => cases ha
  | cons b rest ih =>
      rcases List.mem_cons.mp ha with rfl | ha'
      · simp [onlyLoop, hmiss]
      · by_cases hb : d.any (fun q => q.1 = b) = true
        · have hmiss' : (d.filter fun p => p.1 ∈ allOnly).any
              (fun q => q.1 = a) = false := by
            rw [List.any_eq_false] at hmiss ⊢
            intro x hx
            exact hmiss x (List.mem_of_mem_filter hx)
          simp [onlyLoop, hb, ih _ ha' hmiss']
        · simp [onlyLoop, Bool.eq_false_iff.mpr hb]

theorem SetupReportGroups_error (groupArgs : List (String × Regex))
    (onlyArgs notArgs : List String) (a : String) (ha : a ∈ onlyArgs)
    (hmiss : (mergedReportGroups groupArgs).any (fun q => q.1 = a) = false) :
    SetupReportGroups groupArgs onlyArgs notArgs = .error () := by
  have hne : onlyArgs.isEmpty = false :=
    List.isEmpty_eq_false.mpr (List.ne_nil_of_mem ha)
  simp only [SetupReportGroups, hne, Bool.false_eq_true, if_false,
    onlyLoop_error onlyArgs onlyArgs (mergedReportGroups groupArgs) a ha hmiss]
  rfl

/-- C5: if `--only` names a group that is neither a default group nor
supplied with `--group`, the configuration step fails (the script prints an
error and `exit(1)`s) before any file is processed: the process exit code is
1 and no `Results` (hence no processed file) exists. -/
theorem C5_unknown_only_group (groupArgs : List (String × Regex))
    (onlyArgs notArgs : List String) (a : String) (ha : a ∈ onlyArgs)
    (hmiss : ∀ p ∈ mergedReportGroups groupArgs, p.1 ≠ a) :
    SetupReportGroups groupArgs onlyArgs notArgs = .error () ∧
    ∀ entries : List Entry,
      Main groupArgs onlyArgs notArgs true entries = (1, none) := by
  have hmiss' : (mergedReportGroups groupArgs).any (fun q => q.1 = a) = false := by
    rw [List.any_eq_false]
    intro x hx
    simpa using hmiss x hx
  have herr := SetupReportGroups_error groupArgs onlyArgs notArgs a ha hmiss'
  exact ⟨herr, fun entries => by simp [Main, herr]⟩

/-- Witness for C5: `--only unknown-group` with no `--group` arguments. -/
theorem C5_unknown_only_group_witness :
    "unknown-group" ∈ ["unknown-group"] ∧
    (∀ p ∈ mergedReportGroups [], p.1 ≠ "unknown-group") ∧
    (SetupReportGroups [] ["unknown-group"] [] = .error () ∧
      ∀ entries : List Entry,
        Main [] ["unknown-group"] [] true entries = (1, none)) :=
  ⟨by decide, by decide,
   C5_unknown_only_group [] ["unknown-group"] [] "unknown-group"
     (by decide) (by decide)⟩

/-- C6: the process exit code is 1 exactly when the compilation database is
unreadable or `SetupReportGroups` rejects the `--only` selection, and 0
exactly on normal completion (database readable and group setup
successful). -/
theorem C6_exit_codes (groupArgs : List (String × Regex))
    (onlyArgs notArgs : List String) (dbReadable : Bool) (entries : List Entry) :
    ((Main groupArgs onlyArgs notArgs dbReadable entries).1 = 1 ↔
      dbReadable = false ∨
        SetupReportGroups groupArgs onlyArgs notArgs = .error ()) ∧
    ((Main groupArgs onlyArgs notArgs dbReadable entries).1 = 0 ↔
      dbReadable = true ∧
        ∃ gs, SetupReportGroups groupArgs onlyArgs notArgs = .ok gs) := by
  cases dbReadable with
  | false => simp [Main]
  | true =>
      cases hset : SetupReportGroups groupArgs onlyArgs notArgs with
      | error e => cases e; simp [Main, hset]
      | ok gs => simp [Main, hset]

unseal List.merge List.mergeSort in
/-- C7: `--largest n` lists exactly the `n` recorded units of greatest
`expanded`, in descending order of `expanded`: the listing is a prefix of a
descending reordering of all units (so the units it omits all have `expanded`
at most that of every listed unit), it is sorted descending, and it has
length `min n (number of units)`; in particular, on four files of expanded
sizes 50, 40, 5, 8, `--largest 2` returns exactly the files of expanded
sizes 50 and 40, in that order. -/
theorem C7_largest_report (r : Results) (n : Nat) :
    (∃ rest, r.units.Perm (largestReport r n ++ rest) ∧
      ∀ x ∈ largestReport r n, ∀ y ∈ rest, y.expanded ≤ x.expanded) ∧
    (largestReport r n).Pairwise (fun a b => b.expanded ≤ a.expanded) ∧
    (largestReport r n).length = min n r.units.length ∧
    largestReport ⟨[], [File.mk "a.cc" 10 50, File.mk "b.cc" 20 40,
      File.mk "c.cc" 5 5, File.mk "d.cc" 8 8]⟩ 2 =
      [File.mk "a.cc" 10 50, File.mk "b.cc" 20 40] := by
  have htrans : ∀ a b c : File,
      (fun a b : File => decide (b.expanded ≤ a.expanded)) a b →
      (fun a b : File => decide (b.expanded ≤ a.expanded)) b c →
      (fun a b : File => decide (b.expanded ≤ a.expanded)) a c := by
    intro a b c h1 h2
    simp only [decide_eq_true_eq] at *
    omega
  have htotal : ∀ a b : File,
      ((fun a b : File => decide (b.expanded ≤ a.expanded)) a b ||
       (fun a b : File => decide (b.expanded ≤ a.expanded)) b a) := by
    intro a b
    simpa using Int.le_total b.expanded a.expanded
  have hsorted := @List.sorted_mergeSort File
    (fun a b : File => decide (b.expanded ≤ a.expanded)) htrans htotal r.units
  have hperm := List.mergeSort_perm r.units
    (fun a b : File => decide (b.expanded ≤ a.expanded))
  have hrep : largestReport r n =
      (r.units.mergeSort fun a b : File => decide (b.expanded ≤ a.expanded)).take n :=
    rfl
  refine ⟨?_, ?_, ?_, ?_⟩
  · refine ⟨(r.units.mergeSort fun a b : File =>
        decide (b.expanded ≤ a.expanded)).drop n, ?_, ?_⟩
    · rw [hrep, List.take_append_drop]
      exact hperm.symm
    · intro x hx y hy
      rw [← List.take_append_drop n
        (r.units.mergeSort fun a b : File => decide (b.expanded ≤ a.expanded))] at hsorted
      have hcross := (List.pairwise_append.mp hsorted).2.2
      rw [hrep] at hx
      have := hcross x hx y hy
      simpa using this
  · rw [hrep]
    exact (List.Pairwise.sublist (List.take_sublist n _) hsorted).imp (by simp)
  · rw [hrep, List.length_take, List.length_mergeSort]
  · rfl

/-- C8 (divergence witnessed against the code): in `--json` mode with
`--largest 2` (4 tracked files, 5 groups), the "Largest ... files after
expansion:" header is written to standard output — the source's
`print("Largest ...")` passes no `file=` argument — so standard output does
not carry only the JSON object; the progress, summary, group-results and
top-N body lines do go to standard error as the claim says. -/
theorem C8_json_stdout_divergence :
    (OutKind.largestHeader, Chan.stdout) ∈ mainWrites true false 4 4 5 2 0 0 0 ∧
    (∀ kc ∈ mainWrites true false 4 4 5 2 0 0 0,
      (kc.1 = OutKind.progressSum ∨ kc.1 = OutKind.processedSummary ∨
       kc.1 = OutKind.groupLine ∨ kc.1 = OutKind.largestLine) →
      kc.2 = Chan.stderr) ∧
    ¬ (∀ kc ∈ mainWrites true false 4 4 5 2 0 0 0,
        kc.2 = Chan.stdout → kc.1 = OutKind.jsonDump) := by
  refine ⟨by decide, by decide, by decide⟩

/-- C9: group membership is an anchored regular-expression match.  The
default "gen" group's compiled pattern is the literal regex for `gen`, and
matching it against a path succeeds exactly when the path begins with
`gen` — so `gen/file.cc` matches but `out/gen/file.cc`, which merely
contains `gen`, does not — and the very same anchored test `pmatch` is what
`Results.track` folds over the groups and what `Group.account` branches
on. -/
theorem C9_anchored_regex_match :
    dictLookup defaultReportGroups "gen" = some (litRegex "gen".data) ∧
    (∀ s : List Char, pmatch (litRegex "gen".data) s = "gen".data.isPrefixOf s) ∧
    pmatch (litRegex "gen".data) "gen/file.cc".data = true ∧
    pmatch (litRegex "gen".data) "out/gen/file.cc".data = false ∧
    (∀ (r : Results) (f : String),
      r.track f = r.groups.any fun g => pmatch g.regexp f.data) ∧
    (∀ (g : Group) (u : File), g.account u =
      if pmatch g.regexp u.file.data then
        { g with loc := g.loc + u.loc, expanded := g.expanded + u.expanded,
                 count := g.count + 1 }
      else g) :=
  ⟨rfl, pmatch_litRegex "gen".data, by decide, by decide,
   fun _ _ => rfl, fun _ _ => rfl⟩

/-! ## Python-dict lemmas for the `--group` merge -/

theorem dictLookup_dictInsert (d : Dict α) (k : String) (v : α) (k' : String) :
    dictLookup (dictInsert d k v) k' = if k = k' then some v else dictLookup d k' := by
  induction d with
  | nil => simp [dictInsert, dictLookup]
  | cons p d ih =>
      by_cases hpk : p.1 = k
      · by_cases hk' : k = k'
        · simp [dictInsert, hpk, dictLookup, hk']
        · have hp' : ¬ p.1 = k' := by rw [hpk]; exact hk'
          simp [dictInsert, hpk, dictLookup, hk', hp']
      · by_cases hp' : p.1 = k'
        · have hk' : ¬ k = k' := by rw [← hp']; intro h; exact hpk h.symm
          have hk'' : ¬ k' = k := fun h => hk' h.symm
          simp [dictInsert, hpk, dictLookup, hp', hk', hk'']
        · simp [dictInsert, hpk, dictLookup, hp', ih]

theorem dictLookup_dictMerge (a : Dict α) (l : List (String × α)) (k : String) :
    dictLookup (dictMerge a l) k =
      match dictLookup (dictMerge [] l) k with
      | some v => some v
      | none => dictLookup a k := by
  induction l generalizing a with
  | nil => simp [dictMerge, dictLookup]
  | cons p l ih =>
      have step : ∀ b : Dict α, dictMerge b (p :: l) = dictMerge (dictInsert b p.1 p.2) l :=
        fun b => rfl
      rw [step a, step ([] : Dict α), ih (dictInsert a p.1 p.2),
        ih (dictInsert ([] : Dict α) p.1 p.2)]
      cases dictLookup (dictMerge [] l) k with
      | some v => rfl
      | none =>
          simp only [dictLookup_dictInsert]
          by_cases hk : p.1 = k <;> simp [hk, dictLookup]

theorem dictInsert_of_not_mem_keys (d : Dict α) (k : String) (v : α)
    (h : k ∉ d.map Prod.fst) : dictInsert d k v = d ++ [(k, v)] := by
  induction d with
  | nil => rfl
  | cons p d ih =>
      simp only [List.map_cons, List.mem_cons] at h
      push_neg at h
      have hp : ¬ p.1 = k := fun hc => h.1 hc.symm
      simp [dictInsert, hp, ih h.2]

theorem dictMerge_append (d : List (String × α)) (hd : (d.map Prod.fst).Nodup) :
    ∀ a : Dict α, (∀ x ∈ a.map Prod.fst, x ∉ d.map Prod.fst) →
      dictMerge a d = a ++ d := by
  induction d with
  | nil => intro a _; simp [dictMerge]
  | cons p d ih =>
      intro a hdisj
      rw [List.map_cons, List.nodup_cons] at hd
      have hp : p.1 ∉ a.map Prod.fst := fun hmem => hdisj p.1 hmem (by simp)
      have step : dictMerge a (p :: d) = dictMerge (dictInsert a p.1 p.2) d := rfl
      rw [step, dictInsert_of_not_mem_keys a p.1 p.2 hp, ih hd.2 (a ++ [p])]
      · simp
      · intro x hx
        simp only [List.map_append, List.mem_append, List.map_cons, List.map_nil,
          List.mem_singleton] at hx
        rcases hx with hx | hx
        · intro hxd
          exact hdisj x hx (by simp [hxd])
        · rw [hx]
          exact hd.1

theorem dictMerge_nil_eq_self (d : Dict α) (hd : (d.map Prod.fst).Nodup) :
    dictMerge [] d = d := by
  simpa using dictMerge_append d hd [] (by simp)

theorem mem_keys_dictInsert (d : Dict α) (k : String) (v : α) (x : String)
    (hx : x ∈ (dictInsert d k v).map Prod.fst) :
    x = k ∨ x ∈ d.map Prod.fst := by
  induction d with
  | nil => simpa [dictInsert] using hx
  | cons p d ih =>
      by_cases hpk : p.1 = k
      · simp only [dictInsert, hpk, if_true, List.map_cons, List.mem_cons] at hx ⊢
        tauto
      · simp only [dictInsert, hpk, if_false, List.map_cons, List.mem_cons] at hx ⊢
        rcases hx with hx | hx
        · tauto
        · rcases ih hx with h | h <;> tauto

theorem nodup_keys_dictInsert (d : Dict α) (k : String) (v : α)
    (hd : (d.map Prod.fst).Nodup) : ((dictInsert d k v).map Prod.fst).Nodup := by
  induction d with
  | nil => simp [dictInsert]
  | cons p d ih =>
      rw [List.map_cons, List.nodup_cons] at hd
      by_cases hpk : p.1 = k
      · simp only [dictInsert, hpk, if_true, List.map_cons, List.nodup_cons]
        rw [hpk] at hd
        exact hd
      · simp only [dictInsert, hpk, if_false, List.map_cons, List.nodup_cons]
        refine ⟨?_, ih hd.2⟩
        intro hmem
        rcases mem_keys_dictInsert d k v p.1 hmem with h | h
        · exact hpk h
        · exact hd.1 h

theorem nodup_keys_dictMerge (a : Dict α) (l : List (String × α))
    (ha : (a.map Prod.fst).Nodup) : ((dictMerge a l).map Prod.fst).Nodup := by
  induction l generalizing a with
  | nil => exact ha
  | cons p l ih =>
      have step : dictMerge a (p :: l) = dictMerge (dictInsert a p.1 p.2) l := rfl
      rw [step]
      exact ih _ (nodup_keys_dictInsert a p.1 p.2 ha)

theorem dictLookup_mem (d : Dict α) (k : String) (v : α)
    (h : dictLookup d k = some v) : (k, v) ∈ d := by
  induction d with
  | nil => cases h
  | cons p d ih =>
      by_cases hpk : p.1 = k
      · simp only [dictLookup, hpk, if_true, Option.some.injEq] at h
        have hp : p = (k, v) := by
          cases p
          simp only at hpk h
          rw [hpk, h]
        rw [hp]
        exact List.mem_cons_self _ _
      · simp only [dictLookup, hpk, if_false] at h
        exact List.mem_cons_of_mem p (ih h)

/-- C10: a `--group` pair whose name collides with a default group replaces
the default's pattern in the merged dict (Python `{**defaults, **dict(...)}`:
user entries win), the merged dict still has no duplicate names, and the
final group set built by `SetupReportGroups` (no `--only`/`--not`) contains a
single group of that name, carrying the user-supplied pattern. -/
theorem C10_group_name_override (groupArgs : List (String × Regex))
    (name : String) (pat : Regex)
    (huser : dictLookup (dictOfList groupArgs) name = some pat)
    (_hdefault : name ∈ defaultReportGroups.map Prod.fst) :
    dictLookup (mergedReportGroups groupArgs) name = some pat ∧
    ((mergedReportGroups groupArgs).map Prod.fst).Nodup ∧
    ∀ gs, SetupReportGroups groupArgs [] [] = .ok gs →
      (∃ g ∈ gs, g.name = name ∧ g.regexp = pat) ∧ (gs.map Group.name).Nodup := by
  have hnodupUser : ((dictOfList groupArgs).map Prod.fst).Nodup :=
    nodup_keys_dictMerge [] groupArgs (by simp)
  have hmergedNodup : ((mergedReportGroups groupArgs).map Prod.fst).Nodup :=
    nodup_keys_dictMerge defaultReportGroups (dictOfList groupArgs) (by decide)
  have hlook : dictLookup (mergedReportGroups groupArgs) name = some pat := by
    rw [mergedReportGroups, dictLookup_dictMerge,
      dictMerge_nil_eq_self (dictOfList groupArgs) hnodupUser, huser]
  refine ⟨hlook, hmergedNodup, ?_⟩
  intro gs hgs
  have hgs' : gs = (mergedReportGroups groupArgs).map
      fun p => { name := p.1, regexp := p.2, loc := 0, expanded := 0,
                 count := 0 : Group } := by
    have : SetupReportGroups groupArgs [] [] =
        .ok ((mergedReportGroups groupArgs).map
          fun p => { name := p.1, regexp := p.2, loc := 0, expanded := 0,
                     count := 0 : Group }) := rfl
    rw [this] at hgs
    exact (Except.ok.inj hgs).symm
  subst hgs'
  constructor
  · exact ⟨⟨name, pat, 0, 0, 0⟩,
      List.mem_map.mpr ⟨(name, pat),
        dictLookup_mem (mergedReportGroups groupArgs) name pat hlook, rfl⟩,
      rfl, rfl⟩
  · have : ((mergedReportGroups groupArgs).map
        fun p => { name := p.1, regexp := p.2, loc := 0, expanded := 0,
                   count := 0 : Group }).map Group.name =
        (mergedReportGroups groupArgs).map Prod.fst := by
      simp [List.map_map, Function.comp]
    rw [this]
    exact hmergedNodup

/-- Witness for C10: `--group gen '.*'` overrides the default "gen" group. -/
theorem C10_group_name_override_witness :
    dictLookup (dictOfList [("gen", dotStar)]) "gen" = some dotStar ∧
    "gen" ∈ defaultReportGroups.map Prod.fst ∧
    (dictLookup (mergedReportGroups [("gen", dotStar)]) "gen" = some dotStar ∧
      ((mergedReportGroups [("gen", dotStar)]).map Prod.fst).Nodup ∧
      ∀ gs, SetupReportGroups [("gen", dotStar)] [] [] = .ok gs →
        (∃ g ∈ gs, g.name = "gen" ∧ g.regexp = dotStar) ∧
        (gs.map Group.name).Nodup) :=
  ⟨by decide, by decide,
   C10_group_name_override [("gen", dotStar)] "gen" dotStar (by decide) (by decide)⟩

end Locs
